import Mathlib

/-!
Verification development for the flcheck dependency-validation core.

The definitions below are a shallow embedding of the Rust sources
(`src/pubspec.rs`, `src/config.rs`, `src/dependency.rs`, `src/util.rs`,
`src/error.rs`, `src/command.rs`).  Machine paths are modelled over plain
strings with Unix `std::path` component semantics; regular expressions from
the configuration (blacklist, public repositories) are modelled as opaque
boolean matchers `String → Bool`, since no verified property depends on the
regex language itself.  The unbounded Rust recursions are modelled with an
explicit fuel parameter; a `none` result of a fueled function means the
Rust computation did not complete within `fuel` nested recursive calls.
-/

/-- Embedding of `str::starts_with` (byte-prefix test, stated over the
character list; equivalent for valid UTF-8). -/
def strStartsWith (s pre : String) : Bool :=
  pre.data.isPrefixOf s.data

/-- Helper for `splitOnChar`: accumulate the current segment. -/
def splitOnCharAux (c : Char) : List Char → List Char → List String
  | acc, [] => [String.mk acc.reverse]
  | acc, x :: xs =>
    if x = c then String.mk acc.reverse :: splitOnCharAux c [] xs
    else splitOnCharAux c (x :: acc) xs

/-- The path separator character. -/
def slashChar : Char := Char.ofNat 47

/-- Split a string on a single character, as `String::split` /
`str.splitOn` do for a one-character separator. -/
def splitOnChar (c : Char) (s : String) : List String :=
  splitOnCharAux c [] s.data

/-- Unix path component, mirroring `std::path::Component` (no `Prefix`
components exist on Unix). -/
inductive PathComp where
  | curDir : PathComp
  | parentDir : PathComp
  | normal (name : String) : PathComp
deriving DecidableEq

/-- Keep every component that is not `CurDir`. -/
def notCur : PathComp → Bool
  | PathComp.curDir => false
  | _ => true

/-- Parse a path string into its components, mirroring
`std::path::Path::components` on Unix: empty and `.` segments are dropped,
except that a leading `.` of a relative path is kept as `CurDir`. -/
def parseComps (s : String) : List PathComp :=
  let parts := (splitOnChar slashChar s).filter (fun p => decide (¬ p = ""))
  let raw := parts.map (fun p =>
    if p = "." then PathComp.curDir
    else if p = ".." then PathComp.parentDir
    else PathComp.normal p)
  if strStartsWith s "/" then raw.filter notCur
  else
    match raw with
    | PathComp.curDir :: rest => PathComp.curDir :: rest.filter notCur
    | _ => raw.filter notCur

/-- Render a component list back to a string.  Rust returns sub-slices of
the original `OsStr`; rendering re-joins the components with single
separators, which only differs on inputs with redundant separators and is
immaterial to every theorem below. -/
def renderPath (hasRoot : Bool) (comps : List PathComp) : String :=
  let segs := comps.map (fun c =>
    match c with
    | PathComp.curDir => "."
    | PathComp.parentDir => ".."
    | PathComp.normal n => n)
  if hasRoot then "/" ++ String.intercalate "/" segs
  else String.intercalate "/" segs

/-- Fold of `util::normalize_path` over the component list: `CurDir` is
skipped, `ParentDir` pops the accumulated `PathBuf` (a pop on an empty
buffer, i.e. at the root, is a no-op, exactly as `PathBuf::pop`), and a
normal segment is pushed. -/
def normSegs : List String → List PathComp → List String
  | segs, [] => segs
  | segs, PathComp.curDir :: rest => normSegs segs rest
  | segs, PathComp.parentDir :: rest => normSegs segs.dropLast rest
  | segs, PathComp.normal n :: rest => normSegs (segs ++ [n]) rest

/-- Embedding of `util::normalize_path_str` (and `normalize_path`): a
purely lexical normalization that never consults the filesystem. -/
def normalizePathStr (s : String) : String :=
  renderPath (strStartsWith s "/") ((normSegs [] (parseComps s)).map PathComp.normal)

/-- Embedding of `pubspec::file_name`: the final normal component of a
path, if any (`PathBuf::file_name`). -/
def fileName (path : String) : Option String :=
  match (parseComps path).getLast? with
  | some (PathComp.normal n) => some n
  | _ => none

/-- Embedding of `pubspec::pubspec_dir`: the directory name and directory
path of the manifest's parent directory.  `none` exactly when the parent
directory cannot be determined (`Path::parent` is `None`, or the parent's
`file_name` is `None`). -/
def pubspecDir (path : String) : Option (String × String) :=
  match parseComps path with
  | [] => none
  | _ :: _ =>
    let parentComps := (parseComps path).dropLast
    match parentComps.getLast? with
    | some (PathComp.normal n) => some (n, renderPath (strStartsWith path "/") parentComps)
    | _ => none

/-- Embedding of `error::ValidationLevel`; `none` mirrors
`ValidationLevel::None`. -/
inductive ValidationLevel where
  | error : ValidationLevel
  | warning : ValidationLevel
  | none : ValidationLevel
deriving DecidableEq

/-- Embedding of `error::ValidationType`. -/
inductive ValidationType where
  | gitDevDependency : ValidationType
  | unknownDependency : ValidationType
  | dependencyNotAllowed : ValidationType
  | cyclicDependency : ValidationType
  | nonGitDependencyInPublicPackage : ValidationType
deriving DecidableEq

/-- Embedding of `error::FlError`, restricted to the variants reachable
from the modelled core (file-I/O and HTTP variants concern the external
boundary and are omitted). -/
inductive FlError where
  | configValidation (msg : String) : FlError
  | validationError (count : Nat) : FlError
  | invalidValidationType (s : String) : FlError
  | invalidValidationLevel (level typ : String) : FlError
  | noInputFiles (dir : String) : FlError
deriving DecidableEq

/-- Embedding of `error::PackageValidation`. -/
structure PackageValidation where
  package_name : String
  error : String
  description : Option String
  code : ValidationType
  level : ValidationLevel
deriving DecidableEq

/-- Embedding of `config::PackageType`. -/
structure PackageType where
  name : String
  prefixes : List String
  includes : List String
deriving DecidableEq

/-- Embedding of `config::Config`.  The two regular-expression lists are
modelled as lists of opaque matchers. -/
structure Config where
  package_types : List PackageType
  blacklist : List (String → Bool)
  validations : List (ValidationType × ValidationLevel)
  public_repositories : List (String → Bool)

/-- Embedding of `PackageType::matches_prefix`. -/
def PackageType.matchesPfx (pt : PackageType) (dir_name : String) : Bool :=
  pt.prefixes.any (fun pfx => strStartsWith dir_name pfx)

/-- Embedding of `Config::is_valid`. -/
def configIsValid (config : Config) : Bool :=
  ¬ config.package_types.isEmpty

/-- Modelled from the spec: `Config::is_empty` is called by
`Pubspec::allowed_dependency` but its definition is not part of the source
snapshot; per the spec the allowed-dependency check is "skipped entirely if
the policy has no package-types configured". -/
def configIsEmpty (config : Config) : Bool :=
  config.package_types.isEmpty

/-- Embedding of `Config::is_blacklisted`. -/
def isBlacklisted (config : Config) (full_path : String) : Bool :=
  config.blacklist.any (fun rgx => rgx full_path)

/-- Embedding of `Config::is_public_repo`. -/
def isPublicRepo (config : Config) (git_repo : String) : Bool :=
  config.public_repositories.any (fun rgx => rgx git_repo)

/-- Embedding of `Config::validation_level`: first configured level for
the given validation type, defaulting to `Error`. -/
def validationLevel (config : Config) (validation_type : ValidationType) : ValidationLevel :=
  match config.validations.find? (fun pr => decide (pr.fst = validation_type)) with
  | some pr => pr.snd
  | Option.none => ValidationLevel.error

/-- Single quotes around a string, as produced by the Rust format strings. -/
def squote (s : String) : String := "\x27" ++ s ++ "\x27"

/-- Embedding of `Config::package_exists`. -/
def packageExists (package_types : List PackageType) (package_name : String) : Bool :=
  package_types.any (fun package => decide (package.name = package_name))

/-- Loop of `Config::validate`: first configuration error over the
package types (unknown include, then empty prefix list). -/
def configErrLoop (all : List PackageType) : List PackageType → Option FlError
  | [] => Option.none
  | package :: rest =>
    match package.includes.find? (fun inc => ! packageExists all inc) with
    | some inc =>
      some (FlError.configValidation
        ("package " ++ squote package.name ++ ": unknown include " ++ squote inc))
    | Option.none =>
      if package.prefixes.isEmpty then
        some (FlError.configValidation
          ("package " ++ squote package.name ++ ": empty dir_prefix"))
      else configErrLoop all rest

/-- Embedding of `Config::validate`: the policy-load validation that
accepts or rejects a whole configuration. -/
def configValidate (config : Config) : Except FlError Config :=
  if configIsValid config then
    match configErrLoop config.package_types config.package_types with
    | some e => Except.error e
    | Option.none => Except.ok config
  else Except.error (FlError.configValidation "no package types configured")

/-- Embedding of `dependency::Dependency`: a declared manifest dependency,
optionally carrying an override (itself a dependency). -/
inductive Dependency where
  | localDep (name path : String) (overridden : Option Dependency) : Dependency
  | gitDep (name git path : String) (overridden : Option Dependency) : Dependency
  | pubDev (name version : String) (overridden : Option Dependency) : Dependency

/-- Embedding of `Dependency::name`. -/
def Dependency.name : Dependency → String
  | Dependency.localDep name _ _ => name
  | Dependency.gitDep name _ _ _ => name
  | Dependency.pubDev name _ _ => name

/-- Embedding of `Dependency::overridden`. -/
def Dependency.overridden : Dependency → Option Dependency
  | Dependency.localDep _ _ ov => ov
  | Dependency.gitDep _ _ _ ov => ov
  | Dependency.pubDev _ _ ov => ov

/-- Embedding of `Dependency::with_override`: the same declaration,
carrying the given override. -/
def Dependency.withOverride : Dependency → Dependency → Dependency
  | Dependency.localDep name path _, ov => Dependency.localDep name path (some ov)
  | Dependency.gitDep name git path _, ov => Dependency.gitDep name git path (some ov)
  | Dependency.pubDev name version _, ov => Dependency.pubDev name version (some ov)

/-- Embedding of `Dependency::effective`: the override if present,
otherwise the dependency itself. -/
def Dependency.effective : Dependency → Dependency
  | Dependency.localDep name path ov => ov.getD (Dependency.localDep name path ov)
  | Dependency.gitDep name git path ov => ov.getD (Dependency.gitDep name git path ov)
  | Dependency.pubDev name version ov => ov.getD (Dependency.pubDev name version ov)

/-- Embedding of `Dependency::is_local`. -/
def Dependency.isLocal : Dependency → Bool
  | Dependency.localDep _ _ _ => true
  | _ => false

/-- Embedding of `Dependency::is_git`. -/
def Dependency.isGit : Dependency → Bool
  | Dependency.gitDep _ _ _ _ => true
  | _ => false

/-- Embedding of `Dependency::is_pubdev`. -/
def Dependency.isPubdev : Dependency → Bool
  | Dependency.pubDev _ _ _ => true
  | _ => false

/-- Embedding of `Dependency::is_public`: a git dependency whose
repository matches a configured public-repository pattern. -/
def Dependency.isPublic (dep : Dependency) (config : Config) : Bool :=
  match dep with
  | Dependency.gitDep _ git _ _ => isPublicRepo config git
  | _ => false

/-- Embedding of `yaml_rust::Yaml` (the `Alias` variant is kept for
completeness; it is produced by the YAML loader only). -/
inductive Yaml where
  | real (s : String) : Yaml
  | integer (i : Int) : Yaml
  | str (s : String) : Yaml
  | boolean (b : Bool) : Yaml
  | array (xs : List Yaml) : Yaml
  | hash (xs : List (Yaml × Yaml)) : Yaml
  | alias (n : Nat) : Yaml
  | null : Yaml
  | badValue : Yaml

/-- Embedding of `Yaml::as_str`. -/
def Yaml.asStr : Yaml → Option String
  | Yaml.str s => some s
  | _ => Option.none

/-- Embedding of `Yaml::as_bool`. -/
def Yaml.asBool : Yaml → Option Bool
  | Yaml.boolean b => some b
  | _ => Option.none

/-- Embedding of `Yaml::as_hash`. -/
def Yaml.asHash : Yaml → Option (List (Yaml × Yaml))
  | Yaml.hash xs => some xs
  | _ => Option.none

/-- Abstraction of `Yaml::as_f64` composed with `format!` in
`extract_dependency` (`value.as_f64().map(|num| format!("{}", num))`): a
`Real` scalar is kept as its textual form.  The f64 parse/format
round-trip is not modelled; no verified property depends on it. -/
def Yaml.asF64Str : Yaml → Option String
  | Yaml.real s => some s
  | _ => Option.none

/-- Embedding of `Index<&str> for Yaml`: hash lookup by string key,
defaulting to `BadValue`. -/
def yamlGet (y : Yaml) (key : String) : Yaml :=
  match y with
  | Yaml.hash xs =>
    match xs.find? (fun kv =>
      match kv.fst with
      | Yaml.str s => decide (s = key)
      | _ => false) with
    | some kv => kv.snd
    | Option.none => Yaml.badValue
  | _ => Yaml.badValue

/-- Embedding of `pubspec::extract_dependency`: local path wins, then a
git reference with both url and path, then a registry version scalar. -/
def extractDependency (key : String) (value : Yaml) : Option Dependency :=
  let path := ((yamlGet value "path").asStr).getD ""
  if ¬ path = "" then some (Dependency.localDep key path Option.none)
  else
    let gitNode := yamlGet value "git"
    let gitUrl := ((yamlGet gitNode "url").asStr).getD ""
    let gitPath := ((yamlGet gitNode "path").asStr).getD ""
    if ¬ gitUrl = "" ∧ ¬ gitPath = "" then
      some (Dependency.gitDep key gitUrl gitPath Option.none)
    else
      (value.asStr.orElse (fun _ => value.asF64Str)).map
        (fun version => Dependency.pubDev key version Option.none)

/-- Loop of `pubspec::get_dependencies` over the `dependencies` hash
entries, applying `dependency_overrides`. -/
def getDepsLoop (overridesYaml : Yaml) : List (Yaml × Yaml) → List Dependency
  | [] => []
  | kv :: rest =>
    let key := (kv.fst.asStr).getD ""
    if key = "" then getDepsLoop overridesYaml rest
    else
      match extractDependency key kv.snd with
      | some dep =>
        (match extractDependency key (yamlGet overridesYaml key) with
         | some depOverride => dep.withOverride depOverride
         | Option.none => dep) :: getDepsLoop overridesYaml rest
      | Option.none => getDepsLoop overridesYaml rest

/-- Embedding of `pubspec::get_dependencies`. -/
def getDependencies (yaml : Yaml) : List Dependency :=
  getDepsLoop (yamlGet yaml "dependency_overrides")
    (((yamlGet yaml "dependencies").asHash).getD [])

/-- Loop of `pubspec::get_dev_dependencies`. -/
def getDevDepsLoop : List (Yaml × Yaml) → List Dependency
  | [] => []
  | kv :: rest =>
    let key := (kv.fst.asStr).getD ""
    if key = "" then getDevDepsLoop rest
    else
      match extractDependency key kv.snd with
      | some dep => dep :: getDevDepsLoop rest
      | Option.none => getDevDepsLoop rest

/-- Embedding of `pubspec::get_dev_dependencies`. -/
def getDevDependencies (yaml : Yaml) : List Dependency :=
  getDevDepsLoop (((yamlGet yaml "dev_dependencies").asHash).getD [])

/-- Embedding of `pubspec::is_public_package`. -/
def isPublicPackage (yaml : Yaml) : Bool :=
  ((yamlGet (yamlGet yaml "flcheck") "is_public").asBool).getD false

/-- Embedding of `pubspec::Pubspec`. -/
structure Pubspec where
  name : String
  path : String
  dir_name : String
  dir_path : String
  dependencies : List Dependency
  dev_dependencies : List Dependency
  is_public : Bool

/-- Embedding of `Pubspec::load` after the YAML document has been
obtained (`util::load_yaml` is the file-I/O boundary, out of the modelled
core per the spec's scope): field extraction with defaults, failing only
when `pubspec_dir` cannot determine the parent directory. -/
def pubspecLoadFromYaml (path : String) (yaml : Yaml) : Except FlError Pubspec :=
  let name := ((yamlGet yaml "name").asStr).getD ""
  match pubspecDir path with
  | Option.none =>
    Except.error (FlError.configValidation
      ("cannot determine parent directory for " ++ path))
  | some dirs =>
    Except.ok
      { name := name
        path := path
        dir_name := dirs.fst
        dir_path := dirs.snd
        dependencies := getDependencies yaml
        dev_dependencies := getDevDependencies yaml
        is_public := isPublicPackage yaml }

/-- Embedding of `Pubspec::validation`: build a `PackageValidation` for
this package, resolving the severity level from the configuration. -/
def mkValidation (self : Pubspec) (config : Config) (error : String)
    (code : ValidationType) (description : Option String) : PackageValidation :=
  { package_name := self.name
    error := error
    description := description
    code := code
    level := validationLevel config code }

/-- Embedding of `Pubspec::resolve_dependency`: only an effective local
dependency resolves, by exact equality of the lexically normalized join of
the declaring package's directory and the relative path against a
package's directory path. -/
def resolveDependency (self : Pubspec) (dep : Dependency) (packages : List Pubspec) :
    Option Pubspec :=
  match dep.effective with
  | Dependency.localDep _ path _ =>
    let full_str := normalizePathStr (self.dir_path ++ "/" ++ path)
    packages.find? (fun pubspec => decide (pubspec.dir_path = full_str))
  | _ => Option.none

/-- Merge loop inside `valid_include_prefixes`: push each recursively
obtained prefix that is not yet present. -/
def mergeNew (acc : List String) (xs : List String) : List String :=
  xs.foldl (fun a ip => if ip ∈ a then a else a ++ [ip]) acc

/-- Inner loop of `valid_include_prefixes` over the prefixes of one
included package type: a prefix not yet collected is pushed and, when the
included type is a different type, the recursion's prefixes are merged in.
`sub` is the recursive call at the next depth. -/
def vipPfxLoop (sub : PackageType → Option (List String)) (tname : String)
    (pkg : PackageType) : List String → List String → Option (List String)
  | acc, [] => some acc
  | acc, pfx :: rest =>
    if pfx ∈ acc then vipPfxLoop sub tname pkg acc rest
    else if pkg.name = tname then vipPfxLoop sub tname pkg (acc ++ [pfx]) rest
    else
      match sub pkg with
      | Option.none => Option.none
      | some inner => vipPfxLoop sub tname pkg (mergeNew (acc ++ [pfx]) inner) rest

/-- Outer loop of `valid_include_prefixes` over all configured package
types, handling the ones named in the current type's `includes`. -/
def vipPkgLoop (sub : PackageType → Option (List String)) (pkgType : PackageType) :
    List String → List PackageType → Option (List String)
  | acc, [] => some acc
  | acc, pkg :: rest =>
    if pkg.name ∈ pkgType.includes then
      match vipPfxLoop sub pkgType.name pkg acc pkg.prefixes with
      | Option.none => Option.none
      | some acc2 => vipPkgLoop sub pkgType acc2 rest
    else vipPkgLoop sub pkgType acc rest

/-- Embedding of `pubspec::valid_include_prefixes`.  The Rust function
recurses without any cross-call visited set (only the `pkg.name !=
pkg_type.name` guard), so it need not terminate; `fuel` bounds the nesting
depth and `none` means the Rust computation exceeds that depth. -/
def validIncludePrefixes : Nat → PackageType → Config → Option (List String)
  | 0, _, _ => Option.none
  | Nat.succ f, pkgType, config =>
    vipPkgLoop (fun pkg => validIncludePrefixes f pkg config) pkgType [] config.package_types

/-- Flattening loop for `allowed_dependency`'s
`filter(..).flat_map(|include| valid_include_prefixes(include, config))`. -/
def vipFlatLoop (f : PackageType → Option (List String)) : List PackageType → Option (List String)
  | [] => some []
  | pt :: rest =>
    match f pt, vipFlatLoop f rest with
    | some xs, some ys => some (xs ++ ys)
    | _, _ => Option.none

/-- Insertion of a string into a sorted list (helper for `sortStrings`). -/
def insertSorted (x : String) : List String → List String
  | [] => [x]
  | y :: ys => if x ≤ y then x :: y :: ys else y :: insertSorted x ys

/-- Model of `Vec::sort_unstable` on strings (insertion sort; unstable vs
stable is indistinguishable on strings, and the claims only exercise the
ASCII range where Rust's byte order and Lean's character order agree). -/
def sortStrings : List String → List String
  | [] => []
  | x :: xs => insertSorted x (sortStrings xs)

/-- Model of `Vec::dedup`: remove consecutive duplicates. -/
def dedupAdj : List String → List String
  | [] => []
  | [x] => [x]
  | x :: y :: rest =>
    if x = y then dedupAdj (y :: rest) else x :: dedupAdj (y :: rest)

/-- Embedding of `Pubspec::allowed_dependency`: the allowed-dependency
check for one (non-dev) dependency.  The outer `Option` is the fuel layer
of `validIncludePrefixes`; the inner `Option` is the Rust return value. -/
def allowedDependency (fuel : Nat) (self : Pubspec) (dep : Dependency) (config : Config)
    (packages : List Pubspec) : Option (Option PackageValidation) :=
  if configIsEmpty config then some Option.none
  else if dep.isPubdev then some Option.none
  else if dep.isGit then some Option.none
  else
    match vipFlatLoop (fun pt => validIncludePrefixes fuel pt config)
        (config.package_types.filter (fun pt => pt.matchesPfx self.dir_name)) with
    | Option.none => Option.none
    | some validPfxs =>
      match resolveDependency self dep packages with
      | Option.none =>
        some (some (mkValidation self config
          ("unable to find dependency " ++ squote dep.name)
          ValidationType.unknownDependency Option.none))
      | some depPubspec =>
        if validPfxs.any (fun pfx => strStartsWith depPubspec.dir_name pfx) then
          some Option.none
        else
          some (some (mkValidation self config
            ("dependency to " ++ squote dep.name ++ " is not allowed")
            ValidationType.dependencyNotAllowed
            (some ("packages with the following directory prefixes are allowed only: "
              ++ String.intercalate ", " (dedupAdj (sortStrings (validPfxs.map squote)))))))

/-- Embedding of `Pubspec::git_packages_in_dev_dependencies`. -/
def gitPackagesInDevDependencies (self : Pubspec) (config : Config) (dep : Dependency) :
    Option PackageValidation :=
  if dep.isPublic config then
    some (mkValidation self config
      ("git dependency in dev_dependencies " ++ dep.name)
      ValidationType.gitDevDependency Option.none)
  else Option.none

/-- Embedding of `Pubspec::public_package_git_dependencies_only`. -/
def publicPackageGitDependenciesOnly (self : Pubspec) (config : Config) (dep : Dependency) :
    Option PackageValidation :=
  if ¬ self.is_public ∨ ¬ dep.isLocal then Option.none
  else
    some (mkValidation self config
      ("non-git dependency " ++ squote dep.name ++ " in public package")
      ValidationType.nonGitDependencyInPublicPackage Option.none)

/-- Loop of `Pubspec::cyclic_dependency` over a resolved package's
dependencies and dev-dependencies: return the first cycle finding, `none`
(inner) when no branch reports one.  `recurse` is the recursive call at
the next depth with the extended seen path. -/
def cyclicLoop (recurse : Dependency → List String → Option (Option PackageValidation))
    (seenNew : List String) : List Dependency → Option (Option PackageValidation)
  | [] => some Option.none
  | d :: ds =>
    match recurse d seenNew with
    | Option.none => Option.none
    | some (some v) => some (some v)
    | some Option.none => cyclicLoop recurse seenNew ds

/-- Embedding of `Pubspec::cyclic_dependency`: the depth-first walk from
`self` along resolvable dependencies, carrying the ordered seen path of
directory paths.  The outer `Option` is the fuel layer (the Rust recursion
depth is bounded by the package count, so any sufficiently large fuel is
exact); the inner `Option` is the Rust return value. -/
def cyclicDependency : Nat → Pubspec → Config → Dependency → List Pubspec → List String →
    Option (Option PackageValidation)
  | 0, _, _, _, _, _ => Option.none
  | Nat.succ f, self, config, dep, packages, seen =>
    match resolveDependency self dep packages with
    | Option.none => some Option.none
    | some revDep =>
      match seen.findIdx? (fun d => decide (d = revDep.dir_path)) with
      | some idx =>
        if ¬ self.dir_path = revDep.dir_path then some Option.none
        else
          let prepared := (seen.drop idx).filterMap fileName ++ [squote revDep.dir_name]
          some (some (mkValidation self config
            ("cyclic dependency " ++ String.intercalate " -> " prepared)
            ValidationType.cyclicDependency Option.none))
      | Option.none =>
        cyclicLoop (fun d s => cyclicDependency f self config d packages s)
          (seen ++ [revDep.dir_path])
          (revDep.dependencies ++ revDep.dev_dependencies)

/-- Loop of `Pubspec::validate` producing, per non-dev dependency, the
allowed-dependency and public-package findings in order. -/
def validateDepLoop (fuel : Nat) (self : Pubspec) (config : Config)
    (packages : List Pubspec) : List Dependency → Option (List PackageValidation)
  | [] => some []
  | dep :: rest =>
    match allowedDependency fuel self dep config packages with
    | Option.none => Option.none
    | some a =>
      match validateDepLoop fuel self config packages rest with
      | Option.none => Option.none
      | some vs =>
        some ((a.toList ++ (publicPackageGitDependenciesOnly self config dep).toList) ++ vs)

/-- Loop of `Pubspec::validate` running the cyclic-dependency walk for
every dependency and dev-dependency, each from the fresh seen path
`[self.dir_path]`. -/
def validateCyclicLoop (fuel : Nat) (self : Pubspec) (config : Config)
    (packages : List Pubspec) : List Dependency → Option (List PackageValidation)
  | [] => some []
  | dep :: rest =>
    match cyclicDependency fuel self config dep packages [self.dir_path] with
    | Option.none => Option.none
    | some c =>
      match validateCyclicLoop fuel self config packages rest with
      | Option.none => Option.none
      | some vs => some (c.toList ++ vs)

/-- Embedding of `Pubspec::validate`: no findings at all for a
blacklisted manifest path; otherwise the per-dependency findings, the
cycle findings over dependencies and dev-dependencies, and the
dev-dependency git findings, concatenated in the source's order. -/
def validateP (fuel : Nat) (self : Pubspec) (config : Config) (packages : List Pubspec) :
    Option (List PackageValidation) :=
  if isBlacklisted config self.path then some []
  else
    match validateDepLoop fuel self config packages self.dependencies with
    | Option.none => Option.none
    | some depVals =>
      match validateCyclicLoop fuel self config packages
          (self.dependencies ++ self.dev_dependencies) with
      | Option.none => Option.none
      | some cycVals =>
        some (depVals ++ cycVals
          ++ self.dev_dependencies.filterMap (gitPackagesInDevDependencies self config))

/-- Counting loop of `command::validate`: number of findings across all
packages, accumulated with `u32` wraparound as in `num_errors += 1`. -/
def commandLoop (fuel : Nat) (config : Config) (pubspecs : List Pubspec) :
    List Pubspec → Nat → Option Nat
  | [], acc => some acc
  | p :: rest, acc =>
    match validateP fuel p config pubspecs with
    | Option.none => Option.none
    | some vs => commandLoop fuel config pubspecs rest ((acc + vs.length) % 4294967296)

/-- Embedding of `command::validate` (identical in `main.rs`): exit with
`ValidationError` carrying the error count when any finding was produced,
`Ok` otherwise. -/
def commandValidate (fuel : Nat) (config : Config) (pubspecs : List Pubspec) :
    Option (Except FlError Unit) :=
  (commandLoop fuel config pubspecs pubspecs 0).map
    (fun numErrors =>
      if numErrors > 0 then Except.error (FlError.validationError numErrors)
      else Except.ok ())

/-- Specification-side count of all findings produced by detection across
the package collection (severity plays no role), used to state what the
error count of `command::validate` actually contains. -/
def specFindingCounts (fuel : Nat) (config : Config) (pubspecs : List Pubspec) :
    List Pubspec → Option Nat
  | [] => some 0
  | p :: rest =>
    match validateP fuel p config pubspecs, specFindingCounts fuel config pubspecs rest with
    | some vs, some n => some (vs.length + n)
    | _, _ => Option.none

/-- Total number of findings produced by detection over the whole
collection, independent of configured severities. -/
def specTotalFindingCount (fuel : Nat) (config : Config) (pubspecs : List Pubspec) :
    Option Nat :=
  specFindingCounts fuel config pubspecs pubspecs

/-- Reachability through the policy's `includes` edges: `IncludesReach
pts T U` holds when `U` is a declared package type reachable from `T` via
one or more `includes` entries. -/
inductive IncludesReach (pts : List PackageType) : PackageType → PackageType → Prop where
  | direct {T U : PackageType} (hmem : U ∈ pts) (hinc : U.name ∈ T.includes) :
      IncludesReach pts T U
  | step {T V U : PackageType} (hmem : V ∈ pts) (hinc : V.name ∈ T.includes)
      (h : IncludesReach pts V U) : IncludesReach pts T U

/-- Policy with a single type `app` that has no includes, from the spec's
example `{app: prefix "app_", includes: []}`. -/
def appType : PackageType := { name := "app", prefixes := ["app_"], includes := [] }

/-- Configuration holding only `appType`. -/
def cfgAppOnly : Config :=
  { package_types := [appType], blacklist := [], validations := [], public_repositories := [] }

/-- Package `foo` in directory `/tmp/app_foo` with a local dependency on
`../app_bar`. -/
def appFooPkg : Pubspec :=
  { name := "foo", path := "/tmp/app_foo/pubspec.yaml", dir_name := "app_foo"
    dir_path := "/tmp/app_foo"
    dependencies := [Dependency.localDep "bar" "../app_bar" Option.none]
    dev_dependencies := [], is_public := false }

/-- Package `bar` in directory `/tmp/app_bar`, no dependencies. -/
def appBarPkg : Pubspec :=
  { name := "bar", path := "/tmp/app_bar/pubspec.yaml", dir_name := "app_bar"
    dir_path := "/tmp/app_bar"
    dependencies := [], dev_dependencies := [], is_public := false }

/-- DAG policy in which two included types share a prefix: `t` includes
`a` and `b`, both carrying prefix `"x"`, and only `b` includes `c`. -/
def colT : PackageType := { name := "t", prefixes := ["t_"], includes := ["a", "b"] }

/-- Type `a` of the shared-prefix DAG policy. -/
def colA : PackageType := { name := "a", prefixes := ["x"], includes := [] }

/-- Type `b` of the shared-prefix DAG policy. -/
def colB : PackageType := { name := "b", prefixes := ["x"], includes := ["c"] }

/-- Type `c` of the shared-prefix DAG policy. -/
def colC : PackageType := { name := "c", prefixes := ["z"], includes := [] }

/-- Configuration of the shared-prefix DAG policy (acyclic includes). -/
def cfgCollision : Config :=
  { package_types := [colT, colA, colB, colC]
    blacklist := [], validations := [], public_repositories := [] }

/-- Type `a` including `b`: one half of a two-type include cycle. -/
def cycA : PackageType := { name := "a", prefixes := ["a_"], includes := ["b"] }

/-- Type `b` including `a`: the other half of the include cycle. -/
def cycB : PackageType := { name := "b", prefixes := ["b_"], includes := ["a"] }

/-- Configuration whose includes graph is the cycle `a -> b -> a` between
two distinct types; it passes `Config::validate`. -/
def cfgCycle : Config :=
  { package_types := [cycA, cycB], blacklist := [], validations := [], public_repositories := [] }

/-- Policy with one type `package` (prefix `pkg_`) that includes itself,
as in the repository's own test configuration. -/
def pkgType : PackageType := { name := "package", prefixes := ["pkg_"], includes := ["package"] }

/-- Configuration holding only `pkgType`. -/
def cfgPkgSelf : Config :=
  { package_types := [pkgType], blacklist := [], validations := [], public_repositories := [] }

/-- Package `pkg_foo` depending locally on `../pkg_bar`. -/
def pkgFooPkg : Pubspec :=
  { name := "pkg_foo", path := "/tmp/pkg_foo/pubspec.yaml", dir_name := "pkg_foo"
    dir_path := "/tmp/pkg_foo"
    dependencies := [Dependency.localDep "pkg_bar" "../pkg_bar" Option.none]
    dev_dependencies := [], is_public := false }

/-- Package `pkg_bar` depending locally back on `../pkg_foo`. -/
def pkgBarPkg : Pubspec :=
  { name := "pkg_bar", path := "/tmp/pkg_bar/pubspec.yaml", dir_name := "pkg_bar"
    dir_path := "/tmp/pkg_bar"
    dependencies := [Dependency.localDep "pkg_foo" "../pkg_foo" Option.none]
    dev_dependencies := [], is_public := false }

/-- The mutually dependent package pair. -/
def mutualPkgs : List Pubspec := [pkgFooPkg, pkgBarPkg]

/-- Configuration `cfgPkgSelf` with the severity of `CyclicDependency`
findings configured as `none`. -/
def cfgSevNone : Config :=
  { package_types := [pkgType]
    blacklist := []
    validations := [(ValidationType.cyclicDependency, ValidationLevel.none)]
    public_repositories := [] }

/-- Configuration `cfgPkgSelf` with `pkg_bar`'s manifest path
blacklisted. -/
def cfgBlack : Config :=
  { package_types := [pkgType]
    blacklist := [fun s => decide (s = "/tmp/pkg_bar/pubspec.yaml")]
    validations := []
    public_repositories := [] }

/-- A registry dependency carrying a local override, used to exercise
override-aware resolution. -/
def ovrDep : Dependency :=
  Dependency.pubDev "pkg_bar" "1.0.0"
    (some (Dependency.localDep "pkg_bar" "../pkg_bar" Option.none))

/-- A resolved dependency target is a member of the package collection. -/
theorem resolveDependency_mem {self : Pubspec} {dep : Dependency} {packages : List Pubspec}
    {r : Pubspec} (h : resolveDependency self dep packages = some r) : r ∈ packages := by
  unfold resolveDependency at h
  split at h
  · exact List.mem_of_find?_eq_some h
  · exact absurd h (by simp)

/-- A resolved dependency target's directory path equals the normalized
join of the declaring directory and the effective relative path. -/
theorem resolveDependency_dir_path {self : Pubspec} {dep : Dependency} {packages : List Pubspec}
    {r : Pubspec} {nm rel : String} {ov : Option Dependency}
    (heff : dep.effective = Dependency.localDep nm rel ov)
    (h : resolveDependency self dep packages = some r) :
    r.dir_path = normalizePathStr (self.dir_path ++ "/" ++ rel) := by
  unfold resolveDependency at h
  rw [heff] at h
  have := List.find?_some h
  simpa using this

/-- C4: for the mutually dependent pair `pkg_foo` and `pkg_bar`,
validating each package individually yields exactly one finding, a
`CyclicDependency`, whose message lists the seen-path directory names from
the repeated entry onward in traversal order and closes with the repeated
directory name in single quotes. -/
theorem mutual_cycle_one_finding_each :
    validateP 10 pkgFooPkg cfgPkgSelf mutualPkgs =
      some [{ package_name := "pkg_foo"
              error := "cyclic dependency pkg_foo -> pkg_bar -> 'pkg_foo'"
              description := Option.none
              code := ValidationType.cyclicDependency
              level := ValidationLevel.error }] ∧
    validateP 10 pkgBarPkg cfgPkgSelf mutualPkgs =
      some [{ package_name := "pkg_bar"
              error := "cyclic dependency pkg_bar -> pkg_foo -> 'pkg_bar'"
              description := Option.none
              code := ValidationType.cyclicDependency
              level := ValidationLevel.error }] := by
  constructor <;> decide

/-- C6: a dependency carrying an override is always handled through the
override: `effective` returns the override when present (the dependency
itself otherwise), for every combination of variants, and resolution of a
dependency whose override is local proceeds by the normalized path built
from the override's relative path. -/
theorem override_governs_resolution :
    ∀ (d : Dependency) (self : Pubspec) (packages : List Pubspec),
      (∀ o : Dependency, d.overridden = some o → d.effective = o) ∧
      (d.overridden = Option.none → d.effective = d) ∧
      (∀ (nm rel : String) (ov2 : Option Dependency),
        d.overridden = some (Dependency.localDep nm rel ov2) →
        resolveDependency self d packages =
          packages.find? (fun pubspec =>
            decide (pubspec.dir_path = normalizePathStr (self.dir_path ++ "/" ++ rel)))) := by
  intro d self packages
  have heff : ∀ o : Dependency, d.overridden = some o → d.effective = o := by
    intro o h
    cases d <;> simp [Dependency.overridden] at h <;> simp [Dependency.effective, h]
  refine ⟨heff, ?_, ?_⟩
  · intro h
    cases d <;> simp [Dependency.overridden] at h <;> simp [Dependency.effective, h]
  · intro nm rel ov2 h
    have := heff _ h
    simp [resolveDependency, this]

/-- C7: a registry-hosted (PubDev) dependency never yields any finding
from the allowed-dependency check — in particular neither
`UnknownDependency` nor `DependencyNotAllowed` — for every package,
policy configuration, package collection and fuel. -/
theorem registry_dependency_no_finding :
    ∀ (fuel : Nat) (self : Pubspec) (dep : Dependency) (config : Config)
      (packages : List Pubspec), dep.isPubdev = true →
      allowedDependency fuel self dep config packages = some Option.none := by
  intro fuel self dep config packages h
  unfold allowedDependency
  cases hc : configIsEmpty config <;> simp [hc, h]

/-- C7 witness. -/
theorem registry_dependency_no_finding_witness :
    allowedDependency 3 pkgFooPkg (Dependency.pubDev "http" "1.0.0" Option.none)
      cfgPkgSelf mutualPkgs = some Option.none :=
  registry_dependency_no_finding 3 pkgFooPkg
    (Dependency.pubDev "http" "1.0.0" Option.none) cfgPkgSelf mutualPkgs rfl

/-- C6 witness. -/
theorem override_governs_resolution_witness :
    ovrDep.effective = Dependency.localDep "pkg_bar" "../pkg_bar" Option.none ∧
    resolveDependency pkgFooPkg ovrDep mutualPkgs =
      mutualPkgs.find? (fun pubspec =>
        decide (pubspec.dir_path =
          normalizePathStr (pkgFooPkg.dir_path ++ "/" ++ "../pkg_bar"))) :=
  ⟨(override_governs_resolution ovrDep pkgFooPkg mutualPkgs).1 _ rfl,
   (override_governs_resolution ovrDep pkgFooPkg mutualPkgs).2.2 "pkg_bar" "../pkg_bar"
     Option.none rfl⟩

/-- C8: a package whose manifest path matches a configured exclusion
pattern yields zero findings from validation, for any fuel, dependencies
and collection; and since it stays in the package collection, any other
package's local dependency whose normalized target path equals its
directory still resolves to a package with that directory. -/
theorem blacklisted_skipped_but_resolvable :
    ∀ (fuel : Nat) (self : Pubspec) (config : Config) (packages : List Pubspec),
      isBlacklisted config self.path = true →
      validateP fuel self config packages = some [] ∧
      (∀ (q : Pubspec) (dep : Dependency) (nm rel : String) (ov : Option Dependency),
        self ∈ packages →
        dep.effective = Dependency.localDep nm rel ov →
        normalizePathStr (q.dir_path ++ "/" ++ rel) = self.dir_path →
        ∃ r, resolveDependency q dep packages = some r ∧ r.dir_path = self.dir_path) := by
  intro fuel self config packages h
  constructor
  · unfold validateP
    simp [h]
  · intro q dep nm rel ov hmem heff hnorm
    have hsome : (packages.find? (fun pubspec =>
        decide (pubspec.dir_path = normalizePathStr (q.dir_path ++ "/" ++ rel)))).isSome := by
      refine List.find?_isSome.mpr ⟨self, hmem, ?_⟩
      simp [hnorm]
    obtain ⟨r, hr⟩ := Option.isSome_iff_exists.mp hsome
    refine ⟨r, ?_, ?_⟩
    · unfold resolveDependency
      rw [heff]
      exact hr
    · have := List.find?_some hr
      simp at this
      rw [this, hnorm]

/-- C8 witness. -/
theorem blacklisted_skipped_but_resolvable_witness :
    validateP 10 pkgBarPkg cfgBlack mutualPkgs = some [] ∧
    (∃ r, resolveDependency pkgFooPkg (Dependency.localDep "pkg_bar" "../pkg_bar" Option.none)
        mutualPkgs = some r ∧ r.dir_path = pkgBarPkg.dir_path) :=
  ⟨(blacklisted_skipped_but_resolvable 10 pkgBarPkg cfgBlack mutualPkgs (by decide)).1,
   (blacklisted_skipped_but_resolvable 10 pkgBarPkg cfgBlack mutualPkgs (by decide)).2
     pkgFooPkg (Dependency.localDep "pkg_bar" "../pkg_bar" Option.none)
     "pkg_bar" "../pkg_bar" Option.none
     (List.mem_cons_of_mem _ (List.mem_cons_self _ _)) rfl (by decide)⟩

/-- C9: loading a manifest (after the external YAML/file layer) fails
exactly when the manifest path has no usable parent directory, for every
YAML document; every missing or malformed field degrades to its default
(empty name, empty dependency lists, not public) instead of failing, as
witnessed by loading the all-bad document `Yaml.badValue`. -/
theorem manifest_load_fails_only_without_parent :
    ∀ (path : String) (yaml : Yaml),
      ((∃ p, pubspecLoadFromYaml path yaml = Except.ok p) ↔ (pubspecDir path).isSome = true) ∧
      (∀ dn dp, pubspecDir path = some (dn, dp) →
        pubspecLoadFromYaml path Yaml.badValue =
          Except.ok { name := "", path := path, dir_name := dn, dir_path := dp
                      dependencies := [], dev_dependencies := [], is_public := false }) := by
  intro path yaml
  constructor
  · constructor
    · rintro ⟨p, hp⟩
      unfold pubspecLoadFromYaml at hp
      cases h : pubspecDir path with
      | none => rw [h] at hp; exact absurd hp (by simp)
      | some d => simp
    · intro h
      cases hh : pubspecDir path with
      | none => rw [hh] at h; simp at h
      | some d => exact ⟨_, by unfold pubspecLoadFromYaml; rw [hh]⟩
  · intro dn dp h
    unfold pubspecLoadFromYaml
    rw [h]
    rfl

/-- C9 witness. -/
theorem manifest_load_fails_only_without_parent_witness :
    ((∃ p, pubspecLoadFromYaml "/tmp/app_foo/pubspec.yaml" (Yaml.array []) = Except.ok p) ↔
      (pubspecDir "/tmp/app_foo/pubspec.yaml").isSome = true) ∧
    pubspecLoadFromYaml "/tmp/app_foo/pubspec.yaml" Yaml.badValue =
      Except.ok { name := "", path := "/tmp/app_foo/pubspec.yaml", dir_name := "app_foo"
                  dir_path := "/tmp/app_foo"
                  dependencies := [], dev_dependencies := [], is_public := false } :=
  ⟨(manifest_load_fails_only_without_parent "/tmp/app_foo/pubspec.yaml" (Yaml.array [])).1,
   (manifest_load_fails_only_without_parent "/tmp/app_foo/pubspec.yaml" (Yaml.array [])).2
     "app_foo" "/tmp/app_foo" (by decide)⟩

/-- C10: lexical normalization never escapes the filesystem root — a
normalized absolute path stays absolute, a `..` with no preceding normal
segment pops nothing (the `PathBuf::pop` at the root is a no-op) — and in
particular `/a` joined with `../../b` normalizes to `/b`, not `b`. -/
theorem normalize_preserves_root :
    (∀ s : String, strStartsWith s "/" = true → ∃ t, normalizePathStr s = "/" ++ t) ∧
    (∀ rest : List PathComp, normSegs [] (PathComp.parentDir :: rest) = normSegs [] rest) ∧
    normalizePathStr "/a/../../b" = "/b" := by
  refine ⟨?_, ?_, by decide⟩
  · intro s h
    unfold normalizePathStr renderPath
    rw [h]
    simp
  · intro rest
    rfl

/-- C10 witness. -/
theorem normalize_preserves_root_witness :
    (∃ t, normalizePathStr "/a/../../b" = "/" ++ t) ∧
    normSegs [] [PathComp.parentDir, PathComp.normal "b"] =
      normSegs [] [PathComp.normal "b"] :=
  ⟨normalize_preserves_root.1 "/a/../../b" (by decide),
   normalize_preserves_root.2.1 [PathComp.normal "b"]⟩

/-- A cycle finding produced by the inner dependency loop comes from one
of the looped-over dependencies. -/
theorem cyclicLoop_some_inv
    {recurse : Dependency → List String → Option (Option PackageValidation)}
    {seenNew : List String} {v : PackageValidation} :
    ∀ ds : List Dependency, cyclicLoop recurse seenNew ds = some (some v) →
      ∃ d ∈ ds, recurse d seenNew = some (some v) := by
  intro ds
  induction ds with
  | nil => intro h; exact absurd h (by simp [cyclicLoop])
  | cons d ds ih =>
    intro h
    unfold cyclicLoop at h
    cases hr : recurse d seenNew with
    | none => rw [hr] at h; exact absurd h (by simp)
    | some o =>
      cases o with
      | none =>
        rw [hr] at h
        obtain ⟨d2, hd2, hh⟩ := ih h
        exact ⟨d2, List.mem_cons_of_mem _ hd2, hh⟩
      | some w =>
        rw [hr] at h
        simp at h
        exact ⟨d, List.mem_cons_self _ _, by rw [hr, h]⟩

/-- Whenever the cyclic-dependency walk reports a finding, some package
of the collection shares the originating package's directory path: the
closing back-edge resolves to the originating package itself. -/
theorem cyclicDependency_some_origin :
    ∀ (fuel : Nat) (self : Pubspec) (config : Config) (dep : Dependency)
      (packages : List Pubspec) (seen : List String) (v : PackageValidation),
      cyclicDependency fuel self config dep packages seen = some (some v) →
      ∃ rev ∈ packages, rev.dir_path = self.dir_path := by
  intro fuel
  induction fuel with
  | zero =>
    intro self config dep packages seen v h
    exact absurd h (by simp [cyclicDependency])
  | succ f ih =>
    intro self config dep packages seen v h
    unfold cyclicDependency at h
    cases hres : resolveDependency self dep packages with
    | none => simp only [hres] at h; exact absurd h (by simp)
    | some revDep =>
      simp only [hres] at h
      cases hidx : seen.findIdx? (fun d => decide (d = revDep.dir_path)) with
      | some idx =>
        simp only [hidx] at h
        by_cases hd : self.dir_path = revDep.dir_path
        · exact ⟨revDep, resolveDependency_mem hres, hd.symm⟩
        · rw [if_pos hd] at h
          exact absurd h (by simp)
      | none =>
        simp only [hidx] at h
        obtain ⟨d, _, hd⟩ := cyclicLoop_some_inv _ h
        exact ih self config d packages _ v hd

/-- C5: the walk from package `P` reports a cycle only when the back-edge
returns to `P` itself — a resolved target that is already on the seen path
but has a different directory than `P` ends the branch with no finding,
and any reported finding implies a collection member sharing `P`'s own
directory path. -/
theorem cycle_reported_only_by_origin :
    (∀ (f : Nat) (self : Pubspec) (config : Config) (dep : Dependency)
      (packages : List Pubspec) (seen : List String) (rev : Pubspec),
      resolveDependency self dep packages = some rev →
      rev.dir_path ∈ seen →
      ¬ rev.dir_path = self.dir_path →
      cyclicDependency (f + 1) self config dep packages seen = some Option.none) ∧
    (∀ (fuel : Nat) (self : Pubspec) (config : Config) (dep : Dependency)
      (packages : List Pubspec) (seen : List String) (v : PackageValidation),
      cyclicDependency fuel self config dep packages seen = some (some v) →
      ∃ rev ∈ packages, rev.dir_path = self.dir_path) := by
  constructor
  · intro f self config dep packages seen rev hres hmem hne
    unfold cyclicDependency
    have hsome : (seen.findIdx? (fun d => decide (d = rev.dir_path))).isSome := by
      rw [List.findIdx?_isSome]
      exact List.any_eq_true.mpr ⟨rev.dir_path, hmem, by simp⟩
    obtain ⟨i, hi⟩ := Option.isSome_iff_exists.mp hsome
    simp only [hres, hi]
    rw [if_pos (fun hh => hne (by rw [hh]))]
  · exact cyclicDependency_some_origin

/-- C5 witness. -/
theorem cycle_reported_only_by_origin_witness :
    cyclicDependency 3 pkgFooPkg cfgPkgSelf
      (Dependency.localDep "pkg_bar" "../pkg_bar" Option.none) mutualPkgs
      ["/elsewhere", "/tmp/pkg_bar"] = some Option.none ∧
    (∃ rev ∈ mutualPkgs, rev.dir_path = pkgFooPkg.dir_path) :=
  ⟨cycle_reported_only_by_origin.1 2 pkgFooPkg cfgPkgSelf
      (Dependency.localDep "pkg_bar" "../pkg_bar" Option.none) mutualPkgs
      ["/elsewhere", "/tmp/pkg_bar"] pkgBarPkg rfl
      (by decide) (by decide),
   cycle_reported_only_by_origin.2 10 pkgFooPkg cfgPkgSelf
      (Dependency.localDep "pkg_bar" "../pkg_bar" Option.none) mutualPkgs
      [pkgFooPkg.dir_path]
      { package_name := "pkg_foo"
        error := "cyclic dependency pkg_foo -> pkg_bar -> 'pkg_foo'"
        description := Option.none
        code := ValidationType.cyclicDependency
        level := ValidationLevel.error } (by decide)⟩

/-- C2: the two-type include cycle `a -> b -> a` is accepted by the
configuration-load validation, yet the allowed-include closure computation
for either type never completes within any recursion depth — the Rust
recursion carries no cross-call visited set (only the direct
`pkg.name != pkg_type.name` guard), so it recurses forever on this input
instead of terminating with each type's prefixes added once. -/
theorem include_cycle_accepted_but_diverges :
    configValidate cfgCycle = Except.ok cfgCycle ∧
    ∀ fuel : Nat,
      validIncludePrefixes fuel cycA cfgCycle = Option.none ∧
      validIncludePrefixes fuel cycB cfgCycle = Option.none := by
  refine ⟨rfl, ?_⟩
  intro fuel
  induction fuel with
  | zero => exact ⟨rfl, rfl⟩
  | succ f ih =>
    constructor <;>
    · simp only [validIncludePrefixes]
      simp [vipPkgLoop, vipPfxLoop, ih.1, ih.2,
        show cfgCycle.package_types = [cycA, cycB] from rfl,
        show cycA.name = "a" from rfl, show cycB.name = "b" from rfl,
        show cycA.includes = ["b"] from rfl, show cycB.includes = ["a"] from rfl,
        show cycA.prefixes = ["a_"] from rfl, show cycB.prefixes = ["b_"] from rfl]

/-- The error-counting loop of `command::validate` computes the total
number of findings (mod 2^32), independent of any finding's severity. -/
theorem commandLoop_counts_all (fuel : Nat) (config : Config) (pubspecs : List Pubspec) :
    ∀ (rest : List Pubspec) (acc : Nat), acc < 4294967296 →
      commandLoop fuel config pubspecs rest acc =
        (specFindingCounts fuel config pubspecs rest).map
          (fun n => (acc + n) % 4294967296) := by
  intro rest
  induction rest with
  | nil =>
    intro acc hacc
    simp [commandLoop, specFindingCounts, Nat.mod_eq_of_lt hacc]
  | cons p rest ih =>
    intro acc hacc
    unfold commandLoop specFindingCounts
    cases h : validateP fuel p config pubspecs with
    | none => simp
    | some vs =>
      simp only []
      rw [ih ((acc + vs.length) % 4294967296) (Nat.mod_lt _ (by norm_num))]
      cases h2 : specFindingCounts fuel config pubspecs rest with
      | none => simp
      | some n =>
        simp [Nat.mod_add_mod, Nat.add_assoc]

/-- C3 (amended): findings whose kind is configured with severity `none`
are produced by detection carrying that level, and unconfigured kinds
default to `Error`; but the error count deciding the exit status counts
every finding regardless of severity — the exit is `ValidationError`
exactly when the total finding count (mod 2^32) is non-zero. -/
theorem severity_none_counted_amended :
    ∀ (fuel : Nat) (config : Config) (pubspecs : List Pubspec) (n : Nat),
      specTotalFindingCount fuel config pubspecs = some n →
      (commandValidate fuel config pubspecs =
        some (if n % 4294967296 > 0 then
          Except.error (FlError.validationError (n % 4294967296)) else Except.ok ())) ∧
      (∀ vt : ValidationType,
        config.validations.find? (fun pr => decide (pr.fst = vt)) = Option.none →
        validationLevel config vt = ValidationLevel.error) := by
  intro fuel config pubspecs n h
  constructor
  · unfold commandValidate
    rw [commandLoop_counts_all fuel config pubspecs pubspecs 0 (by norm_num)]
    unfold specTotalFindingCount at h
    rw [h]
    simp
  · intro vt hvt
    unfold validationLevel
    rw [hvt]

/-- C3 counterexample: with `CyclicDependency` configured at severity
`none`, the cyclic finding is still produced (carrying level `none`), yet
`command::validate` counts it and exits with `ValidationError 2` — the
claim's exclusion from the error count does not happen. -/
theorem severity_none_counted_cex :
    validateP 10 pkgFooPkg cfgSevNone mutualPkgs =
      some [{ package_name := "pkg_foo"
              error := "cyclic dependency pkg_foo -> pkg_bar -> 'pkg_foo'"
              description := Option.none
              code := ValidationType.cyclicDependency
              level := ValidationLevel.none }] ∧
    commandValidate 10 cfgSevNone mutualPkgs =
      some (Except.error (FlError.validationError 2)) := by
  exact ⟨by decide, rfl⟩

/-- C3 witness. -/
theorem severity_none_counted_amended_witness :
    (commandValidate 10 cfgSevNone mutualPkgs =
      some (if 2 % 4294967296 > 0 then
        Except.error (FlError.validationError (2 % 4294967296)) else Except.ok ())) ∧
    validationLevel cfgSevNone ValidationType.unknownDependency = ValidationLevel.error :=
  ⟨(severity_none_counted_amended 10 cfgSevNone mutualPkgs 2 (by decide)).1,
   (severity_none_counted_amended 10 cfgSevNone mutualPkgs 2 (by decide)).2
     ValidationType.unknownDependency rfl⟩

/-- Membership in the accumulator is preserved by the merge loop. -/
theorem mergeNew_mono : ∀ (xs acc : List String) (x : String),
    x ∈ acc → x ∈ mergeNew acc xs := by
  intro xs
  induction xs with
  | nil => intro acc x hx; exact hx
  | cons y ys ih =>
    intro acc x hx
    show x ∈ mergeNew (if y ∈ acc then acc else acc ++ [y]) ys
    apply ih
    by_cases h : y ∈ acc
    · rw [if_pos h]; exact hx
    · rw [if_neg h]; exact List.mem_append_left _ hx

/-- Every element of the merge loop's result comes from the accumulator
or from the merged list. -/
theorem mergeNew_mem : ∀ (xs acc : List String) (x : String),
    x ∈ mergeNew acc xs → x ∈ acc ∨ x ∈ xs := by
  intro xs
  induction xs with
  | nil => intro acc x hx; exact Or.inl hx
  | cons y ys ih =>
    intro acc x hx
    have hx' : x ∈ mergeNew (if y ∈ acc then acc else acc ++ [y]) ys := hx
    rcases ih _ x hx' with h | h
    · by_cases hy : y ∈ acc
      · rw [if_pos hy] at h; exact Or.inl h
      · rw [if_neg hy] at h
        rcases List.mem_append.mp h with h2 | h2
        · exact Or.inl h2
        · simp at h2; subst h2; exact Or.inr (List.mem_cons_self _ _)
    · exact Or.inr (List.mem_cons_of_mem _ h)

/-- Every element produced by the per-prefix loop comes from the
accumulator, from the included type's prefix list, or from the recursive
closure of the included type. -/
theorem vipPfxLoop_sound (sub : PackageType → Option (List String)) (tname : String)
    (pkg : PackageType) :
    ∀ (ps acc res : List String), vipPfxLoop sub tname pkg acc ps = some res →
      ∀ x ∈ res, x ∈ acc ∨ x ∈ ps ∨ ∃ inner, sub pkg = some inner ∧ x ∈ inner := by
  intro ps
  induction ps with
  | nil =>
    intro acc res h x hx
    unfold vipPfxLoop at h
    injection h with h2
    subst h2
    exact Or.inl hx
  | cons pfx rest ih =>
    intro acc res h x hx
    unfold vipPfxLoop at h
    by_cases hmem : pfx ∈ acc
    · rw [if_pos hmem] at h
      rcases ih acc res h x hx with h1 | h1 | h1
      · exact Or.inl h1
      · exact Or.inr (Or.inl (List.mem_cons_of_mem _ h1))
      · exact Or.inr (Or.inr h1)
    · rw [if_neg hmem] at h
      by_cases hname : pkg.name = tname
      · rw [if_pos hname] at h
        rcases ih _ res h x hx with h1 | h1 | h1
        · rcases List.mem_append.mp h1 with h2 | h2
          · exact Or.inl h2
          · simp at h2; subst h2; exact Or.inr (Or.inl (List.mem_cons_self _ _))
        · exact Or.inr (Or.inl (List.mem_cons_of_mem _ h1))
        · exact Or.inr (Or.inr h1)
      · rw [if_neg hname] at h
        cases hsub : sub pkg with
        | none => rw [hsub] at h; exact absurd h (by simp)
        | some inner =>
          rw [hsub] at h
          rcases ih _ res h x hx with h1 | h1 | h1
          · rcases mergeNew_mem inner (acc ++ [pfx]) x h1 with h2 | h2
            · rcases List.mem_append.mp h2 with h3 | h3
              · exact Or.inl h3
              · simp at h3; subst h3; exact Or.inr (Or.inl (List.mem_cons_self _ _))
            · exact Or.inr (Or.inr ⟨inner, rfl, h2⟩)
          · exact Or.inr (Or.inl (List.mem_cons_of_mem _ h1))
          · obtain ⟨inner2, hs2, hx2⟩ := h1
            rw [hsub] at hs2
            injection hs2 with he
            subst he
            exact Or.inr (Or.inr ⟨_, rfl, hx2⟩)

/-- The per-prefix loop only grows the accumulator. -/
theorem vipPfxLoop_mono (sub : PackageType → Option (List String)) (tname : String)
    (pkg : PackageType) :
    ∀ (ps acc res : List String), vipPfxLoop sub tname pkg acc ps = some res →
      ∀ x ∈ acc, x ∈ res := by
  intro ps
  induction ps with
  | nil =>
    intro acc res h x hx
    unfold vipPfxLoop at h
    injection h with h2
    subst h2
    exact hx
  | cons pfx rest ih =>
    intro acc res h x hx
    unfold vipPfxLoop at h
    by_cases hmem : pfx ∈ acc
    · rw [if_pos hmem] at h; exact ih acc res h x hx
    · rw [if_neg hmem] at h
      by_cases hname : pkg.name = tname
      · rw [if_pos hname] at h
        exact ih _ res h x (List.mem_append_left _ hx)
      · rw [if_neg hname] at h
        cases hsub : sub pkg with
        | none => rw [hsub] at h; exact absurd h (by simp)
        | some inner =>
          rw [hsub] at h
          exact ih _ res h x (mergeNew_mono inner _ x (List.mem_append_left _ hx))

/-- The per-prefix loop puts every looped-over prefix into its result. -/
theorem vipPfxLoop_adds (sub : PackageType → Option (List String)) (tname : String)
    (pkg : PackageType) :
    ∀ (ps acc res : List String), vipPfxLoop sub tname pkg acc ps = some res →
      ∀ p ∈ ps, p ∈ res := by
  intro ps
  induction ps with
  | nil => intro acc res h p hp; exact absurd hp (List.not_mem_nil p)
  | cons pfx rest ih =>
    intro acc res h p hp
    unfold vipPfxLoop at h
    rcases List.mem_cons.mp hp with rfl | hp2
    · by_cases hmem : p ∈ acc
      · rw [if_pos hmem] at h
        exact vipPfxLoop_mono sub tname pkg rest acc res h p hmem
      · rw [if_neg hmem] at h
        by_cases hname : pkg.name = tname
        · rw [if_pos hname] at h
          exact vipPfxLoop_mono sub tname pkg rest _ res h p
            (List.mem_append_right _ (by simp))
        · rw [if_neg hname] at h
          cases hsub : sub pkg with
          | none => rw [hsub] at h; exact absurd h (by simp)
          | some inner =>
            rw [hsub] at h
            exact vipPfxLoop_mono sub tname pkg rest _ res h p
              (mergeNew_mono inner _ p (List.mem_append_right _ (by simp)))
    · by_cases hmem : pfx ∈ acc
      · rw [if_pos hmem] at h; exact ih acc res h p hp2
      · rw [if_neg hmem] at h
        by_cases hname : pkg.name = tname
        · rw [if_pos hname] at h; exact ih _ res h p hp2
        · rw [if_neg hname] at h
          cases hsub : sub pkg with
          | none => rw [hsub] at h; exact absurd h (by simp)
          | some inner => rw [hsub] at h; exact ih _ res h p hp2

/-- Every element produced by the per-package-type loop comes from the
accumulator or from an included package type (its prefixes or its
recursive closure). -/
theorem vipPkgLoop_sound (sub : PackageType → Option (List String)) (pkgType : PackageType) :
    ∀ (pts : List PackageType) (acc res : List String),
      vipPkgLoop sub pkgType acc pts = some res →
      ∀ x ∈ res, x ∈ acc ∨ ∃ pkg, pkg ∈ pts ∧ pkg.name ∈ pkgType.includes ∧
        (x ∈ pkg.prefixes ∨ ∃ inner, sub pkg = some inner ∧ x ∈ inner) := by
  intro pts
  induction pts with
  | nil =>
    intro acc res h x hx
    unfold vipPkgLoop at h
    injection h with h2
    subst h2
    exact Or.inl hx
  | cons pkg rest ih =>
    intro acc res h x hx
    unfold vipPkgLoop at h
    by_cases hinc : pkg.name ∈ pkgType.includes
    · rw [if_pos hinc] at h
      cases hfx : vipPfxLoop sub pkgType.name pkg acc pkg.prefixes with
      | none => rw [hfx] at h; exact absurd h (by simp)
      | some acc2 =>
        rw [hfx] at h
        rcases ih acc2 res h x hx with h1 | ⟨pkg2, hmem2, hinc2, hrest⟩
        · rcases vipPfxLoop_sound sub pkgType.name pkg pkg.prefixes acc acc2 hfx x h1
            with h2 | h2 | h2
          · exact Or.inl h2
          · exact Or.inr ⟨pkg, List.mem_cons_self _ _, hinc, Or.inl h2⟩
          · exact Or.inr ⟨pkg, List.mem_cons_self _ _, hinc, Or.inr h2⟩
        · exact Or.inr ⟨pkg2, List.mem_cons_of_mem _ hmem2, hinc2, hrest⟩
    · rw [if_neg hinc] at h
      rcases ih acc res h x hx with h1 | ⟨pkg2, hmem2, hinc2, hrest⟩
      · exact Or.inl h1
      · exact Or.inr ⟨pkg2, List.mem_cons_of_mem _ hmem2, hinc2, hrest⟩

/-- The per-package-type loop only grows the accumulator. -/
theorem vipPkgLoop_mono (sub : PackageType → Option (List String)) (pkgType : PackageType) :
    ∀ (pts : List PackageType) (acc res : List String),
      vipPkgLoop sub pkgType acc pts = some res → ∀ x ∈ acc, x ∈ res := by
  intro pts
  induction pts with
  | nil =>
    intro acc res h x hx
    unfold vipPkgLoop at h
    injection h with h2
    subst h2
    exact hx
  | cons pkg rest ih =>
    intro acc res h x hx
    unfold vipPkgLoop at h
    by_cases hinc : pkg.name ∈ pkgType.includes
    · rw [if_pos hinc] at h
      cases hfx : vipPfxLoop sub pkgType.name pkg acc pkg.prefixes with
      | none => rw [hfx] at h; exact absurd h (by simp)
      | some acc2 =>
        rw [hfx] at h
        exact ih acc2 res h x (vipPfxLoop_mono sub pkgType.name pkg pkg.prefixes acc acc2 hfx x hx)
    · rw [if_neg hinc] at h
      exact ih acc res h x hx

/-- The per-package-type loop collects every prefix of every included
package type it loops over. -/
theorem vipPkgLoop_adds (sub : PackageType → Option (List String)) (pkgType : PackageType) :
    ∀ (pts : List PackageType) (acc res : List String) (pkg : PackageType),
      vipPkgLoop sub pkgType acc pts = some res → pkg ∈ pts →
      pkg.name ∈ pkgType.includes → ∀ pfx ∈ pkg.prefixes, pfx ∈ res := by
  intro pts
  induction pts with
  | nil => intro acc res pkg h hmem; exact absurd hmem (List.not_mem_nil _)
  | cons pkg1 rest ih =>
    intro acc res pkg h hmem hinc pfx hpfx
    unfold vipPkgLoop at h
    rcases List.mem_cons.mp hmem with rfl | hmem2
    · rw [if_pos hinc] at h
      cases hfx : vipPfxLoop sub pkgType.name pkg acc pkg.prefixes with
      | none => rw [hfx] at h; exact absurd h (by simp)
      | some acc2 =>
        rw [hfx] at h
        exact vipPkgLoop_mono sub pkgType rest acc2 res h pfx
          (vipPfxLoop_adds sub pkgType.name pkg pkg.prefixes acc acc2 hfx pfx hpfx)
    · by_cases hinc1 : pkg1.name ∈ pkgType.includes
      · rw [if_pos hinc1] at h
        cases hfx : vipPfxLoop sub pkgType.name pkg1 acc pkg1.prefixes with
        | none => rw [hfx] at h; exact absurd h (by simp)
        | some acc2 => rw [hfx] at h; exact ih acc2 res pkg h hmem2 hinc pfx hpfx
      · rw [if_neg hinc1] at h
        exact ih acc res pkg h hmem2 hinc pfx hpfx

/-- Soundness of the allowed-include closure: every prefix it returns
belongs to a package type reachable from the queried type via one or more
`includes` edges (so a type's own prefixes appear only when the type is
reachable from itself). -/
theorem validIncludePrefixes_sound :
    ∀ (fuel : Nat) (T : PackageType) (config : Config) (res : List String),
      validIncludePrefixes fuel T config = some res →
      ∀ x ∈ res, ∃ U, U ∈ config.package_types ∧
        IncludesReach config.package_types T U ∧ x ∈ U.prefixes := by
  intro fuel
  induction fuel with
  | zero =>
    intro T config res h
    exact absurd h (by simp [validIncludePrefixes])
  | succ f ih =>
    intro T config res h x hx
    have h' : vipPkgLoop (fun pkg => validIncludePrefixes f pkg config) T []
        config.package_types = some res := h
    rcases vipPkgLoop_sound _ T config.package_types [] res h' x hx
      with h1 | ⟨pkg, hmem, hinc, hrest⟩
    · exact absurd h1 (List.not_mem_nil _)
    · rcases hrest with h2 | ⟨inner, hsub, hxin⟩
      · exact ⟨pkg, hmem, IncludesReach.direct hmem hinc, h2⟩
      · obtain ⟨U, hU, hreach, hxU⟩ := ih pkg config inner hsub x hxin
        exact ⟨U, hU, IncludesReach.step hmem hinc hreach, hxU⟩

/-- Direct-include completeness of the allowed-include closure: when the
computation completes, it contains every prefix of every directly included
package type. -/
theorem validIncludePrefixes_direct_complete :
    ∀ (fuel : Nat) (T : PackageType) (config : Config) (res : List String),
      validIncludePrefixes (fuel + 1) T config = some res →
      ∀ pkg ∈ config.package_types, pkg.name ∈ T.includes →
      ∀ pfx ∈ pkg.prefixes, pfx ∈ res := by
  intro fuel T config res h pkg hmem hinc pfx hpfx
  have h' : vipPkgLoop (fun pkg => validIncludePrefixes fuel pkg config) T []
      config.package_types = some res := h
  exact vipPkgLoop_adds _ T config.package_types [] res pkg h' hmem hinc pfx hpfx

/-- C1 counterexample: (i) under the policy `{app: prefix "app_",
includes: []}` the closure of `app` is empty — a type does not trivially
include itself — and the resolvable local dependency from `/tmp/app_foo`
to `/tmp/app_bar` produces a `DependencyNotAllowed` finding, where the
claim requires none; (ii) on the acyclic shared-prefix policy
`cfgCollision`, `c` is reachable from `t` via includes and carries prefix
`"z"`, yet the computed closure of `t` is `["x"]` — so the closure is not
the union of prefixes over all reachable types even on a DAG. -/
theorem allowed_include_closure_cex :
    (validIncludePrefixes 10 appType cfgAppOnly = some [] ∧
      "app_" ∈ appType.prefixes ∧
      allowedDependency 5 appFooPkg (Dependency.localDep "bar" "../app_bar" Option.none)
        cfgAppOnly [appFooPkg, appBarPkg] =
        some (some { package_name := "foo"
                     error := "dependency to 'bar' is not allowed"
                     description :=
                       some "packages with the following directory prefixes are allowed only: "
                     code := ValidationType.dependencyNotAllowed
                     level := ValidationLevel.error })) ∧
    (validIncludePrefixes 10 colT cfgCollision = some ["x"] ∧
      IncludesReach cfgCollision.package_types colT colC ∧
      "z" ∈ colC.prefixes ∧ ¬ "z" ∈ (["x"] : List String)) := by
  refine ⟨⟨by decide, by decide, by decide⟩, ⟨by decide, ?_, by decide, by decide⟩⟩
  exact IncludesReach.step (V := colB) (by decide) (by decide)
    (IncludesReach.direct (by decide) (by decide))

/-- C1 (amended): the allowed-include closure of a type `T` collects
prefixes only of types reachable from `T` via one or more `includes` edges
(`T`'s own prefixes only when `T` is so reachable from itself), and —
when it completes — contains at least every prefix of every directly
included type; in particular, under the policy `{app: prefix "app_",
includes: []}` the closure of `app` is empty and the local dependency
from `/tmp/app_foo` to `/tmp/app_bar` resolves and produces a
`DependencyNotAllowed` finding. -/
theorem allowed_include_closure_amended :
    (∀ (fuel : Nat) (T : PackageType) (config : Config) (res : List String),
      validIncludePrefixes fuel T config = some res →
      ∀ x ∈ res, ∃ U, U ∈ config.package_types ∧
        IncludesReach config.package_types T U ∧ x ∈ U.prefixes) ∧
    (∀ (fuel : Nat) (T : PackageType) (config : Config) (res : List String),
      validIncludePrefixes (fuel + 1) T config = some res →
      ∀ pkg ∈ config.package_types, pkg.name ∈ T.includes →
      ∀ pfx ∈ pkg.prefixes, pfx ∈ res) ∧
    (validIncludePrefixes 10 appType cfgAppOnly = some [] ∧
      allowedDependency 5 appFooPkg (Dependency.localDep "bar" "../app_bar" Option.none)
        cfgAppOnly [appFooPkg, appBarPkg] =
        some (some { package_name := "foo"
                     error := "dependency to 'bar' is not allowed"
                     description :=
                       some "packages with the following directory prefixes are allowed only: "
                     code := ValidationType.dependencyNotAllowed
                     level := ValidationLevel.error })) :=
  ⟨validIncludePrefixes_sound, validIncludePrefixes_direct_complete, by decide, by decide⟩

/-- C1 witness. -/
theorem allowed_include_closure_amended_witness :
    (∃ U, U ∈ cfgPkgSelf.package_types ∧
      IncludesReach cfgPkgSelf.package_types pkgType U ∧ "pkg_" ∈ U.prefixes) ∧
    "pkg_" ∈ (["pkg_"] : List String) :=
  ⟨allowed_include_closure_amended.1 10 pkgType cfgPkgSelf ["pkg_"] (by decide)
     "pkg_" (by decide),
   allowed_include_closure_amended.2.1 9 pkgType cfgPkgSelf ["pkg_"] (by decide)
     pkgType (by decide) (by decide) "pkg_" (by decide)⟩
